import Mathlib

/-!
Verification of the shell-completion augmentation engine of `prompter`
(`src/completions.rs`).

Script text is embedded as `List Char`; Rust's byte-indexed
`String::find` / `String::replace_range` surgery is mirrored by a
first-occurrence substring search (`findSub`) together with
`List.take` / `List.drop` splicing, which is faithful because an
occurrence of a pattern and the span it covers are the same notion at
the byte and at the character level for these scripts.  Fallible
operations (the Rust code panics on a missing anchor) are embedded as
`Except`, the error value carrying the panic message.
-/

set_option maxRecDepth 20000

namespace Prompter

/-- Script text, modelling Rust `String` contents. -/
abbrev Text := List Char

/-- The shell kind (`clap_complete::Shell` is a non-exhaustive enum; the
`other` constructor models any unrecognized future variant together with
its display name, as matched by the wildcard arm in `render_instructions`). -/
inductive Shell where
  | bash
  | zsh
  | fish
  | powershell
  | elvish
  | other (name : Text)
deriving DecidableEq

/-- Whether the shell is one of the five known variants. -/
def Shell.isKnown : Shell → Bool
  | .other _ => false
  | _ => true

/-- First-occurrence substring search: `findSub s p` is the least index at
which `p` occurs in `s`, mirroring Rust's `str::find` for literal patterns. -/
def findSub : Text → Text → Option Nat
  | [], p => if p.isPrefixOf ([] : Text) then some 0 else none
  | c :: t, p => if p.isPrefixOf (c :: t) then some 0 else (findSub t p).map (· + 1)

/-- Replace the first occurrence of `pat` in `s` (if any) by `repl`,
mirroring a `find` followed by `replace_range` in the Rust source. -/
def replaceFirst (s pat repl : Text) : Text :=
  match findSub s pat with
  | none => s
  | some i => s.take i ++ repl ++ s.drop (i + pat.length)

/-- The binary name resolved from the command grammar (`Cli::command().get_name()`). -/
def binName : Text := "prompter".data

/-- Segment 1 of `ROOT_REPLACEMENT` (the concatenation of the segments is the source constant, split only to keep each literal small). -/
def ROOT_REPLACEMENT_seg1 : Text := "        prompter)\n            opts=\"-s -p -P -c -h -V --separator --pre-prompt --post-prompt --config --help --version version license init list validate run completions doctor update help\"\n            if [[ $\x7bcur\x7d == -* ]]; then\n                COMPREPLY=( $(compgen -W \"$\x7bopts\x7d\" -- \"$\x7bcur\x7d\") )\n                return 0\n            fi\n            case \"$\x7bprev\x7d\" in\n                --config|-c)\n".data

/-- Segment 2 of `ROOT_REPLACEMENT` (the concatenation of the segments is the source constant, split only to keep each literal small). -/
def ROOT_REPLACEMENT_seg2 : Text := "                    COMPREPLY=( $(compgen -f -- \"$\x7bcur\x7d\") )\n                    return 0\n                    ;;\n                --separator|-s|--pre-prompt|-p|--post-prompt|-P)\n                    return 0\n                    ;;\n            esac\n            local profiles=\"$(__prompter_bash_list_profiles)\"\n            if [[ -n $\x7bprofiles\x7d ]]; then\n".data

/-- Segment 3 of `ROOT_REPLACEMENT` (the concatenation of the segments is the source constant, split only to keep each literal small). -/
def ROOT_REPLACEMENT_seg3 : Text := "                COMPREPLY=( $(compgen -W \"$\x7bopts\x7d $\x7bprofiles\x7d\" -- \"$\x7bcur\x7d\") )\n            else\n                COMPREPLY=( $(compgen -W \"$\x7bopts\x7d\" -- \"$\x7bcur\x7d\") )\n            fi\n            return 0\n            ;;".data

/-- Bash root-command case-block replacement (`ROOT_REPLACEMENT` in `augment_bash`). -/
def ROOT_REPLACEMENT : Text := ROOT_REPLACEMENT_seg1 ++ (ROOT_REPLACEMENT_seg2 ++ (ROOT_REPLACEMENT_seg3))

/-- Segment 1 of `RUN_REPLACEMENT` (the concatenation of the segments is the source constant, split only to keep each literal small). -/
def RUN_REPLACEMENT_seg1 : Text := "        prompter__run)\n            opts=\"-s -p -P -c -h --separator --pre-prompt --post-prompt --config --help\"\n            if [[ $\x7bcur\x7d == -* ]]; then\n                COMPREPLY=( $(compgen -W \"$\x7bopts\x7d\" -- \"$\x7bcur\x7d\") )\n                return 0\n            fi\n            case \"$\x7bprev\x7d\" in\n                --config|-c)\n                    COMPREPLY=( $(compgen -f -- \"$\x7bcur\x7d\") )\n".data

/-- Segment 2 of `RUN_REPLACEMENT` (the concatenation of the segments is the source constant, split only to keep each literal small). -/
def RUN_REPLACEMENT_seg2 : Text := "                    return 0\n                    ;;\n                --separator|-s|--pre-prompt|-p|--post-prompt|-P)\n                    return 0\n                    ;;\n            esac\n            local profiles=\"$(__prompter_bash_list_profiles)\"\n            if [[ -n $\x7bprofiles\x7d ]]; then\n                COMPREPLY=( $(compgen -W \"$\x7bprofiles\x7d\" -- \"$\x7bcur\x7d\") )\n            fi\n            return 0\n".data

/-- Segment 3 of `RUN_REPLACEMENT` (the concatenation of the segments is the source constant, split only to keep each literal small). -/
def RUN_REPLACEMENT_seg3 : Text := "            ;;".data

/-- Bash `run`-subcommand case-block replacement (`RUN_REPLACEMENT` in `augment_bash`). -/
def RUN_REPLACEMENT : Text := RUN_REPLACEMENT_seg1 ++ (RUN_REPLACEMENT_seg2 ++ (RUN_REPLACEMENT_seg3))

/-- Segment 1 of `BASH_HELPERS` (the concatenation of the segments is the source constant, split only to keep each literal small). -/
def BASH_HELPERS_seg1 : Text := "\n\x23 Dynamic profile helpers appended by prompter.\n__prompter_bash_config_value() \x7b\n    local idx=1\n    local total=$\x7b\x23COMP_WORDS[@]\x7d\n    while [[ $\x7bidx\x7d -lt $\x7btotal\x7d ]]; do\n        case \"$\x7bCOMP_WORDS[idx]\x7d\" in\n            --config|-c)\n                if [[ $((idx + 1)) -lt $\x7btotal\x7d ]]; then\n                    echo \"$\x7bCOMP_WORDS[idx+1]\x7d\"\n                fi\n                return\n                ;;\n".data

/-- Segment 2 of `BASH_HELPERS` (the concatenation of the segments is the source constant, split only to keep each literal small). -/
def BASH_HELPERS_seg2 : Text := "        esac\n        ((idx++))\n    done\n\x7d\n\n__prompter_bash_list_profiles() \x7b\n    local cfg=\"$(__prompter_bash_config_value)\"\n    if [[ -n \"$\x7bcfg\x7d\" ]]; then\n        prompter list --config \"$\x7bcfg\x7d\" 2>/dev/null\n    else\n        prompter list 2>/dev/null\n    fi\n\x7d\n".data

/-- Bash helper block appended by `augment_bash` (`BASH_HELPERS`). -/
def BASH_HELPERS : Text := BASH_HELPERS_seg1 ++ (BASH_HELPERS_seg2)

/-- Segment 1 of `ZSH_HELPERS` (the concatenation of the segments is the source constant, split only to keep each literal small). -/
def ZSH_HELPERS_seg1 : Text := "\n_prompter_config_value() \x7b\n    local idx=1\n    local count=$\x23words\n    while (( idx <= count )); do\n        case $\x7bwords[idx]\x7d in\n            --config|-c)\n                (( idx++ ))\n                if (( idx <= count )); then\n                    echo $\x7bwords[idx]\x7d\n                fi\n                return\n                ;;\n        esac\n        (( idx++ ))\n    done\n\x7d\n\n".data

/-- Segment 2 of `ZSH_HELPERS` (the concatenation of the segments is the source constant, split only to keep each literal small). -/
def ZSH_HELPERS_seg2 : Text := "_prompter_dynamic_profiles() \x7b\n    local cfg=$(_prompter_config_value)\n    local -a profiles\n    if [[ -n $\x7bcfg\x7d ]]; then\n        profiles=($\x7b(f)\"$(prompter list --config $\x7bcfg:q\x7d 2>/dev/null)\"\x7d)\n    else\n        profiles=($\x7b(f)\"$(prompter list 2>/dev/null)\"\x7d)\n    fi\n    if (( $\x7b\x23profiles\x7d )); then\n        compadd -a profiles\n        return 0\n    fi\n    return 1\n\x7d\n".data

/-- Zsh helper block appended by `augment_zsh` (`ZSH_HELPERS`). -/
def ZSH_HELPERS : Text := ZSH_HELPERS_seg1 ++ (ZSH_HELPERS_seg2)

/-- Segment 1 of `FISH_HELPERS` (the concatenation of the segments is the source constant, split only to keep each literal small). -/
def FISH_HELPERS_seg1 : Text := "\nfunction __fish_prompter__config_arg\n\tset -l tokens (commandline -opc)\n\tset -e tokens[1]\n\tfor idx in (seq (count $tokens))\n\t\tswitch $tokens[$idx]\n\t\t\tcase \x27--config\x27\n\t\t\t\tset -l next (math $idx + 1)\n\t\t\t\tif test $next -le (count $tokens)\n\t\t\t\t\techo $tokens[$next]\n\t\t\t\tend\n\t\t\t\treturn\n\t\t\tcase \x27-c\x27\n\t\t\t\tset -l next (math $idx + 1)\n\t\t\t\tif test $next -le (count $tokens)\n\t\t\t\t\techo $tokens[$next]\n\t\t\t\tend\n".data

/-- Segment 2 of `FISH_HELPERS` (the concatenation of the segments is the source constant, split only to keep each literal small). -/
def FISH_HELPERS_seg2 : Text := "\t\t\t\treturn\n\t\tend\n\tend\nend\n\nfunction __fish_prompter__profiles\n\tset -l cfg (__fish_prompter__config_arg)\n\tif test -n \"$cfg\"\n\t\tprompter list --config \"$cfg\" 2>/dev/null\n\telse\n\t\tprompter list 2>/dev/null\n\tend\nend\n\n".data

/-- Segment 3 of `FISH_HELPERS` (the concatenation of the segments is the source constant, split only to keep each literal small). -/
def FISH_HELPERS_seg3 : Text := "complete -c prompter -n \"__fish_prompter_needs_command\" -f -a \"(__fish_prompter__profiles)\" -d \x27Profile\x27\ncomplete -c prompter -n \"__fish_prompter_using_subcommand run\" -f -a \"(__fish_prompter__profiles)\" -d \x27Profile\x27\n".data

/-- Fish helper block appended by `augment_fish` (`FISH_HELPERS`). -/
def FISH_HELPERS : Text := FISH_HELPERS_seg1 ++ (FISH_HELPERS_seg2 ++ (FISH_HELPERS_seg3))

/-- Zsh root shorthand marker (`ROOT_MARKER` in `augment_zsh`). -/
def ROOT_MARKER : Text := "::profile -- Profile to render (shorthand for \x27run \x60<profile>\x60\x27):_default".data

/-- Zsh `run`-subcommand variadic marker (`RUN_MARKER_VARIADIC` in `augment_zsh`). -/
def RUN_MARKER_VARIADIC : Text := "*::profiles -- Profile name(s) to render:_default".data

/-- Replacement text for the Zsh root shorthand marker. -/
def ROOT_MARKER_NEW : Text := "::profile -- Profile to render (shorthand for \x27run \x60<profile>\x60\x27):_prompter_dynamic_profiles".data

/-- Replacement text for the Zsh variadic marker. -/
def RUN_MARKER_NEW : Text := "*::profiles -- Profile name(s) to render:_prompter_dynamic_profiles".data

/-- The case-block terminator searched for by `replace_case_block`
(the Rust literal is a newline, twelve spaces, two semicolons, a newline). -/
def caseTerminator : Text := "\n            ;;\n".data

/-- The start anchor for a labelled case block: eight spaces, the label, a
closing parenthesis (`format!` of the Rust source). -/
def casePattern (label : Text) : Text := "        ".data ++ label ++ ")".data

/-- Anchor patcher of `completions.rs`: find the first occurrence of the
start anchor for `label`; failing that is fatal (`panic!`, embedded as
`Except.error` carrying the panic message).  From the anchor position,
search forward for the terminator; failing that is fatal too.  Otherwise
replace the whole span, from the start of the anchor through the end of
the terminator, by `replacement`. -/
def replace_case_block (script label replacement : Text) : Except Text Text :=
  match findSub script (casePattern label) with
  | none => .error ("expected case block for ".data ++ label)
  | some start =>
    match findSub (script.drop start) caseTerminator with
    | none => .error ("expected terminator for ".data ++ label ++ " block".data)
    | some off =>
      .ok (script.take start ++ replacement ++ script.drop (start + off + caseTerminator.length))

/-- Bash augmenter: patch the root case block, then the `run` case block
(each fatal when its anchor is missing), then append the Bash helpers. -/
def augment_bash (script : Text) : Except Text Text :=
  match replace_case_block script ("prompter".data) ROOT_REPLACEMENT with
  | .error e => .error e
  | .ok s1 =>
    match replace_case_block s1 ("prompter__run".data) RUN_REPLACEMENT with
    | .error e => .error e
    | .ok s2 => .ok (s2 ++ BASH_HELPERS)

/-- Zsh augmenter: replace the first occurrence of each marker when
present (silently skipping an absent marker), then append the Zsh helpers. -/
def augment_zsh (script : Text) : Text :=
  replaceFirst (replaceFirst script ROOT_MARKER ROOT_MARKER_NEW)
      RUN_MARKER_VARIADIC RUN_MARKER_NEW ++ ZSH_HELPERS

/-- Fish augmenter: append the Fish helper block; no in-place patching. -/
def augment_fish (script : Text) : Text :=
  script ++ FISH_HELPERS

/-- First fragment of the banner template (before the program name). -/
def bh1 : Text := "\x23 Shell completion for ".data

/-- Second fragment of the banner template (after the program name, up to
the activation line). -/
def bh2 : Text := "\n\x23\n\x23 To enable completions, add this to your shell config:\n\x23\n".data

/-- Common head of every instruction banner. -/
def bannerHead (b : Text) : Text := bh1 ++ b ++ bh2

/-- Comment prefix opening the activation line. -/
def actPrefix : Text := "\x23   ".data

/-- Bash activation-line fragment before the program name. -/
def actBashPre : Text := "\x23   source <(".data

/-- Bash activation-line fragment after the program name. -/
def actBashSuf : Text := " completions bash)\n\n".data

/-- Zsh activation-line fragment between the two program names. -/
def actZshMid : Text := " completions zsh > ~/.zsh/completions/_".data

/-- Zsh activation-line trailing fragment. -/
def actZshSuf : Text := "\n\x23   Ensure fpath includes ~/.zsh/completions\n\n".data

/-- Fish activation-line fragment after the program name. -/
def actFishSuf : Text := " completions fish | source\n\n".data

/-- PowerShell activation-line fragment after the program name. -/
def actPwshSuf : Text := " completions powershell | Out-String | Invoke-Expression\n\n".data

/-- Elvish activation-line fragment after the program name. -/
def actElvSuf : Text := " completions elvish | eval\n\n".data

/-- Generic fallback fragment between program name and shell name. -/
def actOtherMid : Text := " completions ".data

/-- The two blank-line newlines closing every banner. -/
def nl2 : Text := "\n\n".data

/-- Instruction banner renderer (`render_instructions` in `completions.rs`;
each arm is the corresponding `format!` template split at its `{bin_name}`
and `{other}` insertion points). -/
def render_instructions : Shell → Text → Text
  | .bash, b => bannerHead b ++ actBashPre ++ b ++ actBashSuf
  | .zsh, b => bannerHead b ++ actPrefix ++ b ++ actZshMid ++ b ++ actZshSuf
  | .fish, b => bannerHead b ++ actPrefix ++ b ++ actFishSuf
  | .powershell, b => bannerHead b ++ actPrefix ++ b ++ actPwshSuf
  | .elvish, b => bannerHead b ++ actPrefix ++ b ++ actElvSuf
  | .other n, b => bannerHead b ++ actPrefix ++ b ++ actOtherMid ++ n ++ nl2

/-- Completion orchestrator (`generate` in `completions.rs`).  The raw
script supplied by the external `clap_complete` generator is taken as the
`raw` argument; the emitted stream is the instruction banner followed by
the (possibly augmented) script.  A fatal anchor mismatch (a Rust panic)
is embedded as `Except.error`. -/
def generate (shell : Shell) (raw : Text) : Except Text Text :=
  let instructions := render_instructions shell binName
  let script : Except Text Text :=
    match shell with
    | .bash => augment_bash raw
    | .zsh => .ok (augment_zsh raw)
    | .fish => .ok (augment_fish raw)
    | _ => .ok raw
  match script with
  | .error e => .error e
  | .ok s => .ok (instructions ++ s)

/-- Token scanner shared shape of the three emitted config-discovery shell
helpers: walk the token list; at the first `--config` or `-c`, emit the
following token when there is one (and nothing otherwise); emit nothing
when no such flag occurs. -/
def scanConfigFlag : List Text → Text
  | [] => []
  | w :: rest =>
    if w = "--config".data ∨ w = "-c".data then
      match rest with
      | [] => []
      | v :: _ => v
    else scanConfigFlag rest

/-- The emitted Bash helper `__prompter_bash_config_value` (from
`BASH_HELPERS`): scans `COMP_WORDS[1..]`, i.e. every word after the
command word, echoing the word after the first `--config`/`-c`. -/
def bashConfigValue (compWords : List Text) : Text :=
  scanConfigFlag (compWords.drop 1)

/-- The emitted Zsh helper `_prompter_config_value` (from `ZSH_HELPERS`):
scans `words[1..count]`, i.e. the whole 1-indexed word array including
the command word. -/
def zshConfigValue (words : List Text) : Text :=
  scanConfigFlag words

/-- The emitted Fish helper `__fish_prompter__config_arg` (from
`FISH_HELPERS`): erases the command token, then scans the remaining
tokens of `commandline -opc`. -/
def fishConfigArg (tokens : List Text) : Text :=
  scanConfigFlag (tokens.drop 1)

/-! Specification-level occurrence predicates and the correctness of the
first-occurrence search. -/

/-- The pattern `p` occurs in `s` at position `i`. -/
def matchesAt (s p : Text) (i : Nat) : Prop := p <+: s.drop i

/-- The pattern `p` occurs somewhere in `s`. -/
def occursIn (s p : Text) : Prop := ∃ i, matchesAt s p i

/-- Position `i` is the first occurrence of `p` in `s`. -/
def firstMatchAt (s p : Text) (i : Nat) : Prop :=
  matchesAt s p i ∧ ∀ j, j < i → ¬ matchesAt s p j

instance (s p : Text) (i : Nat) : Decidable (matchesAt s p i) :=
  inferInstanceAs (Decidable (p <+: s.drop i))

instance (s p : Text) (i : Nat) : Decidable (firstMatchAt s p i) :=
  inferInstanceAs (Decidable (matchesAt s p i ∧ ∀ j, j < i → ¬ matchesAt s p j))

theorem matchesAt_zero {s p : Text} : matchesAt s p 0 ↔ p <+: s := by
  simp [matchesAt]

theorem matchesAt_cons_succ {c : Char} {t p : Text} {j : Nat} :
    matchesAt (c :: t) p (j + 1) ↔ matchesAt t p j := by
  simp [matchesAt, List.drop_succ_cons]

theorem findSub_some {s p : Text} {i : Nat} (h : findSub s p = some i) :
    firstMatchAt s p i := by
  induction s generalizing i with
  | nil =>
    unfold findSub at h
    by_cases hp : p.isPrefixOf ([] : Text)
    · simp [hp] at h
      subst h
      refine ⟨?_, fun j hj => absurd hj (Nat.not_lt_zero j)⟩
      rw [matchesAt_zero, ← List.isPrefixOf_iff_prefix]
      exact hp
    · simp [hp] at h
  | cons c t ih =>
    unfold findSub at h
    by_cases hp : p.isPrefixOf (c :: t)
    · simp [hp] at h
      subst h
      refine ⟨?_, fun j hj => absurd hj (Nat.not_lt_zero j)⟩
      rw [matchesAt_zero, ← List.isPrefixOf_iff_prefix]
      exact hp
    · simp [hp, Option.map_eq_some'] at h
      obtain ⟨i', hi', rfl⟩ := h
      obtain ⟨hm, hleast⟩ := ih hi'
      refine ⟨matchesAt_cons_succ.mpr hm, ?_⟩
      intro j hj
      match j with
      | 0 =>
        rw [matchesAt_zero, ← List.isPrefixOf_iff_prefix]
        simpa using hp
      | j' + 1 =>
        rw [matchesAt_cons_succ]
        exact hleast j' (Nat.lt_of_succ_lt_succ hj)

theorem findSub_none {s p : Text} (h : findSub s p = none) :
    ∀ j, ¬ matchesAt s p j := by
  induction s with
  | nil =>
    unfold findSub at h
    by_cases hp : p.isPrefixOf ([] : Text)
    · simp [hp] at h
    · intro j hm
      have : p <+: ([] : Text) := by
        have := hm
        unfold matchesAt at this
        simpa [List.drop_nil] using this
      rw [← List.isPrefixOf_iff_prefix] at this
      exact hp this
  | cons c t ih =>
    unfold findSub at h
    by_cases hp : p.isPrefixOf (c :: t)
    · simp [hp] at h
    · simp [hp] at h
      intro j hm
      match j with
      | 0 =>
        rw [matchesAt_zero, ← List.isPrefixOf_iff_prefix] at hm
        exact hp hm
      | j' + 1 =>
        exact ih h j' (matchesAt_cons_succ.mp hm)

theorem findSub_isSome_of_matchesAt {s p : Text} {j : Nat} (h : matchesAt s p j) :
    (findSub s p).isSome := by
  cases hf : findSub s p with
  | none => exact absurd h (findSub_none hf j)
  | some i => rfl

theorem occursIn_iff_findSub {s p : Text} :
    occursIn s p ↔ (findSub s p).isSome := by
  constructor
  · rintro ⟨j, hj⟩
    exact findSub_isSome_of_matchesAt hj
  · intro h
    cases hf : findSub s p with
    | none => rw [hf] at h; simp at h
    | some i => exact ⟨i, (findSub_some hf).1⟩

instance (s p : Text) : Decidable (occursIn s p) :=
  decidable_of_iff ((findSub s p).isSome = true)
    (by rw [occursIn_iff_findSub])

theorem firstMatchAt_unique {s p : Text} {i j : Nat}
    (hi : firstMatchAt s p i) (hj : firstMatchAt s p j) : i = j := by
  rcases Nat.lt_trichotomy i j with h | h | h
  · exact absurd hi.1 (hj.2 i h)
  · exact h
  · exact absurd hj.1 (hi.2 j h)

theorem findSub_eq_some_of_firstMatchAt {s p : Text} {i : Nat}
    (h : firstMatchAt s p i) : findSub s p = some i := by
  cases hf : findSub s p with
  | none => exact absurd h.1 (findSub_none hf i)
  | some i' =>
    have := firstMatchAt_unique (findSub_some hf) h
    rw [this]

theorem findSub_eq_none_of_not_occurs {s p : Text} (h : ¬ occursIn s p) :
    findSub s p = none := by
  cases hf : findSub s p with
  | none => rfl
  | some i => exact absurd ⟨i, (findSub_some hf).1⟩ h

theorem replaceFirst_of_not_occurs {s pat repl : Text} (h : ¬ occursIn s pat) :
    replaceFirst s pat repl = s := by
  unfold replaceFirst
  rw [findSub_eq_none_of_not_occurs h]

/-! Occurrences under appending, taking and first-occurrence replacement. -/

theorem matchesAt_append_left {a b p : Text} {j : Nat} (h : matchesAt a p j) :
    matchesAt (a ++ b) p j := by
  unfold matchesAt at h ⊢
  rw [List.drop_append_eq_append_drop]
  exact h.trans (List.prefix_append _ _)

theorem matchesAt_append_right {a b p : Text} {j : Nat} (h : matchesAt b p j) :
    matchesAt (a ++ b) p (a.length + j) := by
  unfold matchesAt at h ⊢
  rw [List.drop_append_eq_append_drop]
  have h1 : a.drop (a.length + j) = [] := by
    apply List.drop_eq_nil_of_le
    omega
  have h2 : a.length + j - a.length = j := by omega
  rw [h1, h2]
  simpa using h

theorem matchesAt_take {s p : Text} {i j : Nat} (h : matchesAt s p j)
    (hle : j + p.length ≤ i) : matchesAt (s.take i) p j := by
  unfold matchesAt at h ⊢
  rw [List.drop_take]
  rw [List.prefix_take_iff]
  exact ⟨h, by omega⟩

theorem matchesAt_le_length {s p : Text} {i : Nat} (h : matchesAt s p i)
    (hp : p ≠ []) : i + p.length ≤ s.length := by
  unfold matchesAt at h
  have h1 := h.length_le
  rw [List.length_drop] at h1
  have h2 : 0 < p.length := List.length_pos_of_ne_nil hp
  by_cases hi : i ≤ s.length
  · omega
  · exfalso
    have : s.drop i = [] := List.drop_eq_nil_of_le (by omega)
    rw [this] at h
    have := h.length_le
    simp at this
    omega

theorem replaceFirst_eq_of_firstMatchAt {s pat repl : Text} {i : Nat}
    (h : firstMatchAt s pat i) :
    replaceFirst s pat repl = s.take i ++ repl ++ s.drop (i + pat.length) := by
  unfold replaceFirst
  rw [findSub_eq_some_of_firstMatchAt h]

theorem occursIn_replaceFirst_repl {s pat repl : Text} (h : occursIn s pat)
    (hp : pat ≠ []) : occursIn (replaceFirst s pat repl) repl := by
  obtain ⟨j, hj⟩ := h
  have hsome := findSub_isSome_of_matchesAt hj
  cases hf : findSub s pat with
  | none => rw [hf] at hsome; simp at hsome
  | some i =>
    have hfirst := findSub_some hf
    rw [replaceFirst_eq_of_firstMatchAt hfirst]
    have hi : i ≤ s.length := by
      have := matchesAt_le_length hfirst.1 hp
      omega
    have hlen : (s.take i).length = i := by
      rw [List.length_take]
      omega
    refine ⟨i, ?_⟩
    rw [List.append_assoc]
    have := matchesAt_append_right (a := s.take i)
      (b := repl ++ s.drop (i + pat.length)) (p := repl) (j := 0)
      (by rw [matchesAt_zero]; exact List.prefix_append _ _)
    rw [hlen] at this
    simpa using this

theorem occursIn_replaceFirst_of_disjoint {s pat repl q : Text} {j : Nat}
    (hq : matchesAt s q j)
    (hdisj : ∀ i, firstMatchAt s pat i → j + q.length ≤ i ∨ i + pat.length ≤ j) :
    occursIn (replaceFirst s pat repl) q := by
  cases hf : findSub s pat with
  | none =>
    unfold replaceFirst
    rw [hf]
    exact ⟨j, hq⟩
  | some i =>
    have hfirst := findSub_some hf
    rw [replaceFirst_eq_of_firstMatchAt hfirst]
    rcases hdisj i hfirst with hcase | hcase
    · refine ⟨j, ?_⟩
      exact matchesAt_append_left (matchesAt_append_left (matchesAt_take hq hcase))
    · have hq' : matchesAt (s.drop (i + pat.length)) q (j - (i + pat.length)) := by
        unfold matchesAt at hq ⊢
        rw [List.drop_drop]
        have : i + pat.length + (j - (i + pat.length)) = j := by omega
        rw [this]
        exact hq
      refine ⟨(s.take i ++ repl).length + (j - (i + pat.length)), ?_⟩
      rw [List.append_assoc, ← List.append_assoc]
      exact matchesAt_append_right hq'

/-! Pattern-overlap analysis: two patterns that cannot overlap at any
relative offset can only occur in a script at disjoint spans; this is
what lets the second Zsh marker rewrite leave the first rewrite intact. -/

/-- No suffix of `p` obtained by dropping fewer than `p.length` characters
is prefix-compatible with `q`; hence no occurrence of `q` can begin inside
an occurrence of `p`. -/
def overlapFreeP (p q : Text) : Prop :=
  ∀ d, d < p.length → ¬ ((p.drop d) <+: q ∨ q <+: (p.drop d))

instance (p q : Text) : Decidable (overlapFreeP p q) :=
  inferInstanceAs (Decidable (∀ d, d < p.length → ¬ ((p.drop d) <+: q ∨ q <+: (p.drop d))))

theorem overlap_agree {s p q : Text} {i j : Nat}
    (hp : matchesAt s p i) (hq : matchesAt s q j) (hij : i ≤ j) :
    (p.drop (j - i)) <+: q ∨ q <+: (p.drop (j - i)) := by
  unfold matchesAt at hp hq
  have h1 : p.drop (j - i) <+: s.drop j := by
    have := hp.drop (j - i)
    rw [List.drop_drop] at this
    have heq : i + (j - i) = j := by omega
    rw [heq] at this
    exact this
  exact List.prefix_or_prefix_of_prefix h1 hq

theorem disjoint_of_overlapFree {s p q : Text} {i j : Nat}
    (hp : matchesAt s p i) (hq : matchesAt s q j)
    (h1 : overlapFreeP p q) (h2 : overlapFreeP q p) :
    j + q.length ≤ i ∨ i + p.length ≤ j := by
  rcases Nat.le_total i j with hij | hij
  · by_cases hlt : j < i + p.length
    · exact absurd (overlap_agree hp hq hij) (h1 (j - i) (by omega))
    · right; omega
  · by_cases hlt : i < j + q.length
    · exact absurd (overlap_agree hq hp hij) (h2 (i - j) (by omega))
    · left; omega

/-! Decomposition of occurrences across appends.  Kernel evaluation of
the search on long concrete texts is avoided by splitting texts into
segments and gluing facts about the segments with these lemmas. -/

theorem matchesAt_append_cases {a b p : Text} {j : Nat} (h : matchesAt (a ++ b) p j) :
    (j + p.length ≤ a.length ∧ matchesAt a p j) ∨
    (a.length ≤ j ∧ matchesAt b p (j - a.length)) ∨
    (j < a.length ∧ a.length < j + p.length ∧ (p.drop (a.length - j)) <+: b) := by
  unfold matchesAt at h
  rcases le_or_lt a.length j with hge | hlt
  · refine Or.inr (Or.inl ⟨hge, ?_⟩)
    unfold matchesAt
    rw [List.drop_append_eq_append_drop, List.drop_eq_nil_of_le hge] at h
    simpa using h
  · have hdrop : (a ++ b).drop j = a.drop j ++ b := by
      rw [List.drop_append_eq_append_drop]
      have : j - a.length = 0 := by omega
      rw [this, List.drop_zero]
    rw [hdrop] at h
    have hlen : (a.drop j).length = a.length - j := by
      rw [List.length_drop]
    rcases le_or_lt (j + p.length) a.length with hin | hout
    · refine Or.inl ⟨hin, ?_⟩
      unfold matchesAt
      have hp := List.prefix_iff_eq_take.mp h
      rw [List.take_append_eq_append_take] at hp
      have hz : p.length - (a.drop j).length = 0 := by omega
      rw [hz, List.take_zero, List.append_nil] at hp
      rw [hp]
      exact (List.take_prefix _ _)
    · refine Or.inr (Or.inr ⟨by omega, by omega, ?_⟩)
      have hk := h.drop (a.length - j)
      rw [List.drop_append_eq_append_drop] at hk
      have h1 : (a.drop j).drop (a.length - j) = [] :=
        List.drop_eq_nil_of_le (by omega)
      have h2 : a.length - j - (a.drop j).length = 0 := by omega
      rw [h1, h2, List.drop_zero, List.nil_append] at hk
      exact hk

theorem occursIn_append_left {a b p : Text} (h : occursIn a p) :
    occursIn (a ++ b) p := by
  obtain ⟨j, hj⟩ := h
  exact ⟨j, matchesAt_append_left hj⟩

theorem occursIn_append_right {a b p : Text} (h : occursIn b p) :
    occursIn (a ++ b) p := by
  obtain ⟨j, hj⟩ := h
  exact ⟨a.length + j, matchesAt_append_right hj⟩

theorem not_occursIn_append {a b p : Text}
    (ha : ¬ occursIn a p) (hb : ¬ occursIn b p)
    (hj : ∀ k, k < p.length → 0 < k → ¬ ((p.drop k) <+: b)) :
    ¬ occursIn (a ++ b) p := by
  rintro ⟨j, hjm⟩
  rcases matchesAt_append_cases hjm with ⟨_, h⟩ | ⟨_, h⟩ | ⟨h1, h2, h3⟩
  · exact ha ⟨j, h⟩
  · exact hb ⟨_, h⟩
  · exact hj (a.length - j) (by omega) (by omega) h3

theorem firstMatchAt_append_right_of_clean {a b p : Text} {j : Nat}
    (hfm : firstMatchAt b p j) (ha : ¬ occursIn a p)
    (hj : ∀ k, k < p.length → 0 < k → ¬ ((p.drop k) <+: b)) :
    firstMatchAt (a ++ b) p (a.length + j) := by
  refine ⟨matchesAt_append_right hfm.1, ?_⟩
  intro j' hj' hm
  rcases matchesAt_append_cases hm with ⟨_, h⟩ | ⟨hge, h⟩ | ⟨h1, h2, h3⟩
  · exact ha ⟨j', h⟩
  · exact hfm.2 (j' - a.length) (by omega) h
  · exact hj (a.length - j') (by omega) (by omega) h3

theorem append_ne_nil_right {u v : Text} (h : v ≠ []) : u ++ v ≠ [] := by
  intro hn
  apply h
  cases u with
  | nil => simpa using hn
  | cons c t => simp at hn

/-! Claim theorems. -/

/-- C1: for every script text and label, `replace_case_block` locates the
first occurrence of the start pattern (eight spaces, the label, `)`); if
that pattern is absent, or if the terminator does not occur at or after
that first occurrence, the operation fails fatally with an error naming
the label; otherwise it replaces exactly the span from the start of the
start pattern through the end of the first subsequent terminator
(inclusive) with the replacement, leaving all text before (`take start`)
and after (`drop (start + off + terminator length)`) unchanged. -/
theorem C1_anchor_patcher (script label replacement : Text) :
    (¬ occursIn script (casePattern label) →
        replace_case_block script label replacement =
          Except.error ("expected case block for ".data ++ label)) ∧
    (∀ start, firstMatchAt script (casePattern label) start →
        (¬ occursIn (script.drop start) caseTerminator →
            replace_case_block script label replacement =
              Except.error ("expected terminator for ".data ++ label ++ " block".data)) ∧
        (∀ off, firstMatchAt (script.drop start) caseTerminator off →
            replace_case_block script label replacement =
              Except.ok (script.take start ++ replacement ++
                script.drop (start + off + caseTerminator.length)))) := by
  refine ⟨fun h => ?_, fun start hstart => ⟨fun h => ?_, fun off hoff => ?_⟩⟩
  · simp only [replace_case_block, findSub_eq_none_of_not_occurs h]
  · simp only [replace_case_block, findSub_eq_some_of_firstMatchAt hstart,
      findSub_eq_none_of_not_occurs h]
  · simp only [replace_case_block, findSub_eq_some_of_firstMatchAt hstart,
      findSub_eq_some_of_firstMatchAt hoff]

/-- Concrete script exercising the success path of the anchor patcher. -/
def patchDemoOk : Text := "AB\n        run)x\n            ;;\nZ".data

/-- Concrete script whose case block lacks the terminator. -/
def patchDemoNoTerm : Text := "AB\n        run)x".data

theorem C1_anchor_patcher_witness :
    replace_case_block ("echo hi".data) ("run".data) ("NEW".data) =
        Except.error ("expected case block for ".data ++ "run".data) ∧
    replace_case_block patchDemoNoTerm ("run".data) ("NEW".data) =
        Except.error ("expected terminator for ".data ++ "run".data ++ " block".data) ∧
    replace_case_block patchDemoOk ("run".data) ("NEW".data) =
        Except.ok (patchDemoOk.take 3 ++ "NEW".data ++
          patchDemoOk.drop (3 + 13 + caseTerminator.length)) :=
  ⟨(C1_anchor_patcher ("echo hi".data) ("run".data) ("NEW".data)).1 (by decide),
   ((C1_anchor_patcher patchDemoNoTerm ("run".data) ("NEW".data)).2 3 (by decide)).1 (by decide),
   ((C1_anchor_patcher patchDemoOk ("run".data) ("NEW".data)).2 3 (by decide)).2 13 (by decide)⟩

/-- Splitting of a text into its newline-separated lines. -/
def splitLines : Text → List Text
  | [] => [[]]
  | c :: t =>
    if c = '\n' then [] :: splitLines t
    else
      match splitLines t with
      | [] => [[c]]
      | l :: ls => (c :: l) :: ls

/-- How the line decompositions of two texts glue at an append: the last
line of the first text continues into the first line of the second. -/
def joinParts : List Text → List Text → List Text
  | [], ys => ys
  | [l], ys =>
    match ys with
    | [] => [l]
    | y0 :: yrest => (l ++ y0) :: yrest
  | l :: l2 :: ls, ys => l :: joinParts (l2 :: ls) ys

theorem splitLines_ne_nil (s : Text) : splitLines s ≠ [] := by
  cases s with
  | nil => simp [splitLines]
  | cons c t =>
    unfold splitLines
    by_cases hc : c = '\n'
    · simp [hc]
    · simp only [hc, if_false]
      cases splitLines t with
      | nil => simp
      | cons l ls => simp

theorem splitLines_append (x y : Text) :
    splitLines (x ++ y) = joinParts (splitLines x) (splitLines y) := by
  induction x with
  | nil =>
    cases hy : splitLines y with
    | nil => exact absurd hy (splitLines_ne_nil y)
    | cons y0 yrest => simp [splitLines, joinParts, hy]
  | cons c t ih =>
    by_cases hc : c = '\n'
    · subst hc
      show splitLines ('\n' :: (t ++ y)) = joinParts (splitLines ('\n' :: t)) (splitLines y)
      rw [show splitLines ('\n' :: (t ++ y)) = [] :: splitLines (t ++ y) from by
            simp [splitLines],
          show splitLines ('\n' :: t) = [] :: splitLines t from by simp [splitLines],
          ih]
      cases ht : splitLines t with
      | nil => exact absurd ht (splitLines_ne_nil t)
      | cons t0 trest =>
        cases hy : splitLines y with
        | nil => exact absurd hy (splitLines_ne_nil y)
        | cons y0 yrest => simp [joinParts]
    · have hx : splitLines (c :: (t ++ y)) =
          match splitLines (t ++ y) with
          | [] => [[c]]
          | l :: ls => (c :: l) :: ls := by
        simp [splitLines, hc]
      have hx2 : splitLines (c :: t) =
          match splitLines t with
          | [] => [[c]]
          | l :: ls => (c :: l) :: ls := by
        simp [splitLines, hc]
      rw [List.cons_append, hx, hx2, ih]
      cases ht : splitLines t with
      | nil => exact absurd ht (splitLines_ne_nil t)
      | cons t0 trest =>
        cases trest with
        | nil =>
          cases hy : splitLines y with
          | nil => exact absurd hy (splitLines_ne_nil y)
          | cons y0 yrest => simp [joinParts]
        | cons t1 ts => simp [joinParts]

/-- The first `complete` registration appended for Fish (top level,
guarded by no subcommand having been entered). -/
def fishCompleteLine1 : Text := "complete -c prompter -n \"__fish_prompter_needs_command\" -f -a \"(__fish_prompter__profiles)\" -d \x27Profile\x27".data

/-- The second `complete` registration appended for Fish (scoped to the
`run` subcommand). -/
def fishCompleteLine2 : Text := "complete -c prompter -n \"__fish_prompter_using_subcommand run\" -f -a \"(__fish_prompter__profiles)\" -d \x27Profile\x27".data

/-- The candidate-source invocation used by both Fish registrations. -/
def fishProfilesCall : Text := "(__fish_prompter__profiles)".data

/-- C6: the Fish augmentation appends exactly two `complete` registrations
referencing `__fish_prompter__profiles` as the candidate source: the lines
of `FISH_HELPERS` starting with `complete` are exactly the top-level
registration (applying when no subcommand has been entered) and the one
scoped to the `run` subcommand, each invoking the profile-listing helper. -/
theorem C6_fish_two_complete_registrations :
    (∀ s, augment_fish s = s ++ FISH_HELPERS) ∧
    (splitLines FISH_HELPERS).filter (fun l => ("complete".data).isPrefixOf l) =
        [fishCompleteLine1, fishCompleteLine2] ∧
    occursIn fishCompleteLine1 fishProfilesCall ∧
    occursIn fishCompleteLine2 fishProfilesCall ∧
    occursIn fishCompleteLine1 ("__fish_prompter_needs_command".data) ∧
    occursIn fishCompleteLine2 ("__fish_prompter_using_subcommand run".data) := by
  refine ⟨fun _ => rfl, ?_, by decide, by decide, by decide, by decide⟩
  show (splitLines (FISH_HELPERS_seg1 ++ (FISH_HELPERS_seg2 ++ FISH_HELPERS_seg3))).filter _ = _
  rw [splitLines_append, splitLines_append]
  decide

/-- C7: the Fish augmenter performs no in-place patching: its output is
exactly the input script followed by the appended helper block, so the
whole original script is preserved unchanged as a prefix of the output. -/
theorem C7_fish_append_only (s : Text) :
    augment_fish s = s ++ FISH_HELPERS ∧ s <+: augment_fish s :=
  ⟨rfl, List.prefix_append s FISH_HELPERS⟩

/-- C4: for every input script, if the Zsh root shorthand marker occurs in
the script then after `augment_zsh` the rewritten region references the
dynamic completion function `_prompter_dynamic_profiles` (the augmented
script contains the marker text with `_default` replaced by the dynamic
function name); likewise for the `run`-subcommand variadic marker.  The
two rewrites cannot destroy one another because the marker texts can
never overlap in any script (`overlapFreeP`). -/
theorem C4_zsh_marker_rewrites (s : Text) :
    (occursIn s ROOT_MARKER → occursIn (augment_zsh s) ROOT_MARKER_NEW) ∧
    (occursIn s RUN_MARKER_VARIADIC → occursIn (augment_zsh s) RUN_MARKER_NEW) := by
  constructor
  · intro h
    have h1 : occursIn (replaceFirst s ROOT_MARKER ROOT_MARKER_NEW) ROOT_MARKER_NEW :=
      occursIn_replaceFirst_repl h (by decide)
    obtain ⟨j, hj⟩ := h1
    have h2 : occursIn (replaceFirst (replaceFirst s ROOT_MARKER ROOT_MARKER_NEW)
        RUN_MARKER_VARIADIC RUN_MARKER_NEW) ROOT_MARKER_NEW := by
      refine occursIn_replaceFirst_of_disjoint hj (fun i hi => ?_)
      exact disjoint_of_overlapFree hi.1 hj (by decide) (by decide)
    obtain ⟨k, hk⟩ := h2
    exact ⟨k, matchesAt_append_left hk⟩
  · intro h
    obtain ⟨j, hj⟩ := h
    have h1 : occursIn (replaceFirst s ROOT_MARKER ROOT_MARKER_NEW) RUN_MARKER_VARIADIC := by
      refine occursIn_replaceFirst_of_disjoint hj (fun i hi => ?_)
      exact disjoint_of_overlapFree hi.1 hj (by decide) (by decide)
    have h2 : occursIn (replaceFirst (replaceFirst s ROOT_MARKER ROOT_MARKER_NEW)
        RUN_MARKER_VARIADIC RUN_MARKER_NEW) RUN_MARKER_NEW :=
      occursIn_replaceFirst_repl h1 (by decide)
    obtain ⟨k, hk⟩ := h2
    exact ⟨k, matchesAt_append_left hk⟩

/-- A small Zsh-style script carrying both generator markers. -/
def zshDemoScript : Text :=
  "A".data ++ ROOT_MARKER ++ "\n".data ++ RUN_MARKER_VARIADIC ++ "B".data

theorem C4_zsh_marker_rewrites_witness :
    occursIn (augment_zsh zshDemoScript) ROOT_MARKER_NEW ∧
    occursIn (augment_zsh zshDemoScript) RUN_MARKER_NEW :=
  ⟨(C4_zsh_marker_rewrites zshDemoScript).1 (by decide),
   (C4_zsh_marker_rewrites zshDemoScript).2 (by decide)⟩

/-- C5: `augment_zsh` never fails; when a marker (the root shorthand or
the run-subcommand variadic description) is absent the corresponding
rewrite is silently skipped, the rest of the script is left unchanged,
the helper block is still appended, and Zsh script generation completes
normally (`generate` succeeds). -/
theorem C5_zsh_absent_markers_skipped (s : Text) :
    (¬ occursIn s ROOT_MARKER → ¬ occursIn s RUN_MARKER_VARIADIC →
        augment_zsh s = s ++ ZSH_HELPERS) ∧
    (¬ occursIn s ROOT_MARKER →
        augment_zsh s = replaceFirst s RUN_MARKER_VARIADIC RUN_MARKER_NEW ++ ZSH_HELPERS) ∧
    (¬ occursIn (replaceFirst s ROOT_MARKER ROOT_MARKER_NEW) RUN_MARKER_VARIADIC →
        augment_zsh s = replaceFirst s ROOT_MARKER ROOT_MARKER_NEW ++ ZSH_HELPERS) ∧
    generate Shell.zsh s =
        Except.ok (render_instructions Shell.zsh binName ++ augment_zsh s) := by
  refine ⟨fun h1 h2 => ?_, fun h1 => ?_, fun h2 => ?_, rfl⟩
  · unfold augment_zsh
    rw [replaceFirst_of_not_occurs h1, replaceFirst_of_not_occurs h2]
  · unfold augment_zsh
    rw [replaceFirst_of_not_occurs h1]
  · unfold augment_zsh
    rw [replaceFirst_of_not_occurs h2]

theorem C5_zsh_absent_markers_skipped_witness :
    augment_zsh ("echo hello".data) = "echo hello".data ++ ZSH_HELPERS :=
  (C5_zsh_absent_markers_skipped ("echo hello".data)).1 (by decide) (by decide)

theorem augment_bash_eq_ok {raw s1 s2 : Text}
    (h1 : replace_case_block raw ("prompter".data) ROOT_REPLACEMENT = Except.ok s1)
    (h2 : replace_case_block s1 ("prompter__run".data) RUN_REPLACEMENT = Except.ok s2) :
    augment_bash raw = Except.ok (s2 ++ BASH_HELPERS) := by
  simp only [augment_bash, h1, h2]

theorem augment_bash_ok_append {raw s : Text} (h : augment_bash raw = Except.ok s) :
    ∃ u, s = u ++ BASH_HELPERS := by
  cases h1 : replace_case_block raw ("prompter".data) ROOT_REPLACEMENT with
  | error e =>
    have he : augment_bash raw = Except.error e := by simp only [augment_bash, h1]
    rw [he] at h
    simp at h
  | ok s1 =>
    cases h2 : replace_case_block s1 ("prompter__run".data) RUN_REPLACEMENT with
    | error e =>
      have he : augment_bash raw = Except.error e := by simp only [augment_bash, h1, h2]
      rw [he] at h
      simp at h
    | ok s2 =>
      have he := augment_bash_eq_ok h1 h2
      rw [he] at h
      simp only [Except.ok.injEq] at h
      exact ⟨s2, h.symm⟩

/-- C2: for every supported shell kind (Bash, Zsh, Fish, PowerShell,
Elvish), `generate` never fails and its output is a non-empty instruction
banner followed by a non-empty completion script.  The hypotheses record
the external generator's contract assumed by the code: the raw script is
non-empty and, for Bash, carries the case-block skeleton the anchor
patcher expects (spec §6: an explicit external contract, not re-verified
at runtime). -/
theorem C2_generate_total (shell : Shell) (raw : Text)
    (hknown : shell.isKnown = true)
    (hraw : raw ≠ [])
    (hbash : shell = Shell.bash → (augment_bash raw).isOk = true) :
    ∃ s, generate shell raw =
        Except.ok (render_instructions shell binName ++ s) ∧
      render_instructions shell binName ≠ [] ∧ s ≠ [] := by
  cases shell with
  | bash =>
    have hb := hbash rfl
    cases he : augment_bash raw with
    | error e => rw [he] at hb; simp [Except.isOk, Except.toBool] at hb
    | ok s2 =>
      refine ⟨s2, ?_, by decide, ?_⟩
      · simp only [generate, he]
      · obtain ⟨u, hu⟩ := augment_bash_ok_append he
        rw [hu]
        exact append_ne_nil_right (by decide)
  | zsh =>
    refine ⟨augment_zsh raw, rfl, by decide, ?_⟩
    unfold augment_zsh
    exact append_ne_nil_right (by decide)
  | fish =>
    refine ⟨augment_fish raw, rfl, by decide, ?_⟩
    unfold augment_fish
    exact append_ne_nil_right (by decide)
  | powershell => exact ⟨raw, rfl, by decide, hraw⟩
  | elvish => exact ⟨raw, rfl, by decide, hraw⟩
  | other name => simp [Shell.isKnown] at hknown

/-! A modelled raw generated script.  Modelled from the spec: the external
static script generator (`clap_complete`, an external collaborator per
spec §6) is not part of this repository; its Bash output shape — one
case-style block per subcommand, each starting with the eight-space label
anchor and ending with the twelve-space `;;` terminator, with the static
placeholder token for the optional profile argument inside the blocks —
is modelled here by a concrete skeleton. -/

/-- Modelled from the spec: generator-output text before the root case block. -/
def mbPre : Text := "\x23!/usr/bin/env bash\n_prompter() \x7b\n    local cur prev\n    case \"$\x7bcmd\x7d\" in\n".data

/-- Modelled from the spec: the root-command case block, carrying the
static `[PROFILE]` placeholder and ending with the terminator. -/
def mbRootBlock : Text := "        prompter)\n            opts=\"-h --help run list completions help [PROFILE]\"\n            ;;\n".data

/-- Modelled from the spec: an unrelated subcommand block between the two
patched blocks. -/
def mbMid : Text := "        prompter__completions)\n            opts=\"bash zsh fish\"\n            ;;\n".data

/-- Modelled from the spec: the `run`-subcommand case block with the
variadic placeholder. -/
def mbRunBlock : Text := "        prompter__run)\n            opts=\"-h --help [PROFILES]...\"\n            ;;\n".data

/-- Modelled from the spec: generator-output text after the last block. -/
def mbPost : Text := "    esac\n\x7d\n".data

/-- Modelled from the spec: the raw generated Bash completion script. -/
def modelledBashRaw : Text := mbPre ++ (mbRootBlock ++ (mbMid ++ (mbRunBlock ++ mbPost)))

/-- The Bash script after augmentation of `modelledBashRaw`. -/
def modelledBashOut : Text :=
  mbPre ++ (ROOT_REPLACEMENT ++ (mbMid ++ (RUN_REPLACEMENT ++ (mbPost ++ BASH_HELPERS))))

theorem firstMatchAt_append_left_of_inner {a b p : Text} {j : Nat}
    (hfm : firstMatchAt a p j) (hin : j + p.length ≤ a.length) :
    firstMatchAt (a ++ b) p j := by
  refine ⟨matchesAt_append_left hfm.1, ?_⟩
  intro j' hj' hm
  rcases matchesAt_append_cases hm with ⟨_, h⟩ | ⟨hge, h⟩ | ⟨h1, h2, h3⟩
  · exact hfm.2 j' hj' h
  · omega
  · omega

theorem replace_case_block_eq_ok {script label repl : Text} {start off : Nat}
    (h1 : findSub script (casePattern label) = some start)
    (h2 : findSub (script.drop start) caseTerminator = some off) :
    replace_case_block script label repl =
      Except.ok (script.take start ++ repl ++
        script.drop (start + off + caseTerminator.length)) := by
  simp only [replace_case_block, h1, h2]

/-- Stepwise evaluation of the Bash augmenter on the modelled raw script:
the root block is replaced by `ROOT_REPLACEMENT`, the run block by
`RUN_REPLACEMENT`, and the helpers are appended.  (The evaluation is done
through the anchor lemmas rather than by brute-force normalization.) -/
theorem augment_bash_modelled :
    augment_bash modelledBashRaw = Except.ok modelledBashOut := by
  have e0 : modelledBashRaw = mbPre ++ (mbRootBlock ++ (mbMid ++ (mbRunBlock ++ mbPost))) := rfl
  have hfm1 : firstMatchAt modelledBashRaw (casePattern ("prompter".data)) (mbPre.length + 0) := by
    rw [e0]
    exact firstMatchAt_append_right_of_clean
      ⟨by decide, fun j hj => absurd hj (Nat.not_lt_zero j)⟩ (by decide) (by decide)
  have hf1 : findSub modelledBashRaw (casePattern ("prompter".data)) = some (mbPre.length + 0) :=
    findSub_eq_some_of_firstMatchAt hfm1
  have hdrop1 : modelledBashRaw.drop (mbPre.length + 0) =
      mbRootBlock ++ (mbMid ++ (mbRunBlock ++ mbPost)) := by
    rw [e0, List.drop_append, List.drop_zero]
  have hfmT1 : firstMatchAt (modelledBashRaw.drop (mbPre.length + 0)) caseTerminator 82 := by
    rw [hdrop1]
    exact firstMatchAt_append_left_of_inner (by decide) (by decide)
  have hrcb1 : replace_case_block modelledBashRaw ("prompter".data) ROOT_REPLACEMENT =
      Except.ok (modelledBashRaw.take (mbPre.length + 0) ++ ROOT_REPLACEMENT ++
        modelledBashRaw.drop ((mbPre.length + 0) + 82 + caseTerminator.length)) :=
    replace_case_block_eq_ok hf1 (findSub_eq_some_of_firstMatchAt hfmT1)
  have htake1 : modelledBashRaw.take (mbPre.length + 0) = mbPre := by
    rw [e0, List.take_append, List.take_zero, List.append_nil]
  have hdrop2 : modelledBashRaw.drop ((mbPre.length + 0) + 82 + caseTerminator.length) =
      mbMid ++ (mbRunBlock ++ mbPost) := by
    have harith : (mbPre.length + 0) + 82 + caseTerminator.length =
        mbPre.length + mbRootBlock.length := by
      have h98 : (82 : Nat) + caseTerminator.length = mbRootBlock.length := by decide
      omega
    rw [e0, harith, List.drop_append, List.drop_left]
  have hs1 : replace_case_block modelledBashRaw ("prompter".data) ROOT_REPLACEMENT =
      Except.ok (mbPre ++ (ROOT_REPLACEMENT ++ (mbMid ++ (mbRunBlock ++ mbPost)))) := by
    rw [hrcb1, htake1, hdrop2]
    simp [List.append_assoc]
  have hR1split : ¬ occursIn ROOT_REPLACEMENT (casePattern ("prompter__run".data)) := by
    show ¬ occursIn (ROOT_REPLACEMENT_seg1 ++ (ROOT_REPLACEMENT_seg2 ++ ROOT_REPLACEMENT_seg3)) _
    exact not_occursIn_append (by decide)
      (not_occursIn_append (by decide) (by decide) (by decide)) (by decide)
  have hfm2 : firstMatchAt (mbPre ++ (ROOT_REPLACEMENT ++ (mbMid ++ (mbRunBlock ++ mbPost))))
      (casePattern ("prompter__run".data))
      (mbPre.length + (ROOT_REPLACEMENT.length + (mbMid.length + 0))) := by
    apply firstMatchAt_append_right_of_clean _ (by decide) (by decide)
    apply firstMatchAt_append_right_of_clean _ hR1split (by decide)
    exact firstMatchAt_append_right_of_clean
      ⟨by decide, fun j hj => absurd hj (Nat.not_lt_zero j)⟩ (by decide) (by decide)
  have hdrop3 : (mbPre ++ (ROOT_REPLACEMENT ++ (mbMid ++ (mbRunBlock ++ mbPost)))).drop
      (mbPre.length + (ROOT_REPLACEMENT.length + (mbMid.length + 0))) =
      mbRunBlock ++ mbPost := by
    rw [List.drop_append, List.drop_append, List.drop_append, List.drop_zero]
  have hfmT2 : firstMatchAt (mbRunBlock ++ mbPost) caseTerminator 65 :=
    firstMatchAt_append_left_of_inner (by decide) (by decide)
  have hrcb2 : replace_case_block (mbPre ++ (ROOT_REPLACEMENT ++ (mbMid ++ (mbRunBlock ++ mbPost))))
      ("prompter__run".data) RUN_REPLACEMENT =
      Except.ok ((mbPre ++ (ROOT_REPLACEMENT ++ (mbMid ++ (mbRunBlock ++ mbPost)))).take
          (mbPre.length + (ROOT_REPLACEMENT.length + (mbMid.length + 0))) ++ RUN_REPLACEMENT ++
        (mbPre ++ (ROOT_REPLACEMENT ++ (mbMid ++ (mbRunBlock ++ mbPost)))).drop
          ((mbPre.length + (ROOT_REPLACEMENT.length + (mbMid.length + 0))) + 65 +
            caseTerminator.length)) := by
    apply replace_case_block_eq_ok (findSub_eq_some_of_firstMatchAt hfm2)
    rw [hdrop3]
    exact findSub_eq_some_of_firstMatchAt hfmT2
  have htake2 : (mbPre ++ (ROOT_REPLACEMENT ++ (mbMid ++ (mbRunBlock ++ mbPost)))).take
      (mbPre.length + (ROOT_REPLACEMENT.length + (mbMid.length + 0))) =
      mbPre ++ (ROOT_REPLACEMENT ++ mbMid) := by
    rw [List.take_append, List.take_append, List.take_append, List.take_zero, List.append_nil]
  have hdrop4 : (mbPre ++ (ROOT_REPLACEMENT ++ (mbMid ++ (mbRunBlock ++ mbPost)))).drop
      ((mbPre.length + (ROOT_REPLACEMENT.length + (mbMid.length + 0))) + 65 +
        caseTerminator.length) = mbPost := by
    have harith : (mbPre.length + (ROOT_REPLACEMENT.length + (mbMid.length + 0))) + 65 +
        caseTerminator.length =
        mbPre.length + (ROOT_REPLACEMENT.length + (mbMid.length + mbRunBlock.length)) := by
      have h81 : (65 : Nat) + caseTerminator.length = mbRunBlock.length := by decide
      omega
    rw [harith, List.drop_append, List.drop_append, List.drop_append, List.drop_left]
  have hrcb2f : replace_case_block (mbPre ++ (ROOT_REPLACEMENT ++ (mbMid ++ (mbRunBlock ++ mbPost))))
      ("prompter__run".data) RUN_REPLACEMENT =
      Except.ok ((mbPre ++ (ROOT_REPLACEMENT ++ mbMid)) ++ RUN_REPLACEMENT ++ mbPost) := by
    rw [hrcb2, htake2, hdrop4]
  rw [augment_bash_eq_ok hs1 hrcb2f]
  unfold modelledBashOut
  simp [List.append_assoc]

/-- The static placeholder token the raw generator uses for the optional
profile argument (`[PROFILE]`; the variadic `[PROFILES]...` contains it). -/
def placeholderToken : Text := "[PROFILE]".data

/-- Defining text of the dynamic profile-listing helper for Bash. -/
def bashHelperDefText : Text := "__prompter_bash_list_profiles() \x7b".data

/-- Defining text of the dynamic profile-listing helper for Fish. -/
def fishHelperDefText : Text := "function __fish_prompter__profiles".data

theorem not_occursIn_BASH_HELPERS_placeholder :
    ¬ occursIn BASH_HELPERS placeholderToken := by
  show ¬ occursIn (BASH_HELPERS_seg1 ++ BASH_HELPERS_seg2) _
  exact not_occursIn_append (by decide) (by decide) (by decide)

theorem not_occursIn_FISH_HELPERS_placeholder :
    ¬ occursIn FISH_HELPERS placeholderToken := by
  show ¬ occursIn (FISH_HELPERS_seg1 ++ (FISH_HELPERS_seg2 ++ FISH_HELPERS_seg3)) _
  exact not_occursIn_append (by decide)
    (not_occursIn_append (by decide) (by decide) (by decide)) (by decide)

theorem not_occursIn_ROOT_REPLACEMENT_placeholder :
    ¬ occursIn ROOT_REPLACEMENT placeholderToken := by
  show ¬ occursIn (ROOT_REPLACEMENT_seg1 ++ (ROOT_REPLACEMENT_seg2 ++ ROOT_REPLACEMENT_seg3)) _
  exact not_occursIn_append (by decide)
    (not_occursIn_append (by decide) (by decide) (by decide)) (by decide)

theorem not_occursIn_RUN_REPLACEMENT_placeholder :
    ¬ occursIn RUN_REPLACEMENT placeholderToken := by
  show ¬ occursIn (RUN_REPLACEMENT_seg1 ++ (RUN_REPLACEMENT_seg2 ++ RUN_REPLACEMENT_seg3)) _
  exact not_occursIn_append (by decide)
    (not_occursIn_append (by decide) (by decide) (by decide)) (by decide)

theorem not_occursIn_modelledBashOut_placeholder :
    ¬ occursIn modelledBashOut placeholderToken := by
  show ¬ occursIn (mbPre ++ (ROOT_REPLACEMENT ++ (mbMid ++ (RUN_REPLACEMENT ++
      (mbPost ++ BASH_HELPERS))))) _
  refine not_occursIn_append (by decide) ?_ (by decide)
  refine not_occursIn_append not_occursIn_ROOT_REPLACEMENT_placeholder ?_ (by decide)
  refine not_occursIn_append (by decide) ?_ (by decide)
  refine not_occursIn_append not_occursIn_RUN_REPLACEMENT_placeholder ?_ (by decide)
  exact not_occursIn_append (by decide) not_occursIn_BASH_HELPERS_placeholder (by decide)

/-- C3: for Bash and for Fish, the augmented script always contains the
defining text of the dynamic profile-listing helper
(`__prompter_bash_list_profiles` for Bash, `__fish_prompter__profiles`
for Fish), and never contains a leftover static placeholder token: the
Fish augmenter preserves absence of the placeholder (the raw Fish
generator does not use one), and on the modelled raw Bash script — which
carries the placeholder inside its case blocks — augmentation removes
every occurrence. -/
theorem C3_helpers_present_placeholders_gone :
    (∀ raw s, augment_bash raw = Except.ok s → occursIn s bashHelperDefText) ∧
    (∀ raw, occursIn (augment_fish raw) fishHelperDefText) ∧
    (augment_bash modelledBashRaw = Except.ok modelledBashOut ∧
      occursIn modelledBashRaw placeholderToken ∧
      ¬ occursIn modelledBashOut placeholderToken) ∧
    (∀ raw, ¬ occursIn raw placeholderToken →
      ¬ occursIn (augment_fish raw) placeholderToken) := by
  refine ⟨?_, ?_, ⟨augment_bash_modelled, ?_, not_occursIn_modelledBashOut_placeholder⟩, ?_⟩
  · intro raw s h
    obtain ⟨u, hu⟩ := augment_bash_ok_append h
    rw [hu]
    apply occursIn_append_right
    show occursIn (BASH_HELPERS_seg1 ++ BASH_HELPERS_seg2) _
    exact occursIn_append_right (by decide)
  · intro raw
    apply occursIn_append_right
    show occursIn (FISH_HELPERS_seg1 ++ (FISH_HELPERS_seg2 ++ FISH_HELPERS_seg3)) _
    exact occursIn_append_right (occursIn_append_left (by decide))
  · show occursIn (mbPre ++ (mbRootBlock ++ (mbMid ++ (mbRunBlock ++ mbPost)))) _
    exact occursIn_append_right (occursIn_append_left (by decide))
  · intro raw hraw
    exact not_occursIn_append hraw not_occursIn_FISH_HELPERS_placeholder (by decide)

theorem C3_helpers_present_placeholders_gone_witness :
    occursIn modelledBashOut bashHelperDefText ∧
    ¬ occursIn (augment_fish ("echo hi".data)) placeholderToken :=
  ⟨C3_helpers_present_placeholders_gone.1 modelledBashRaw modelledBashOut augment_bash_modelled,
   C3_helpers_present_placeholders_gone.2.2.2 ("echo hi".data) (by decide)⟩

theorem C2_generate_total_witness :
    ∃ s, generate Shell.bash modelledBashRaw =
        Except.ok (render_instructions Shell.bash binName ++ s) ∧
      render_instructions Shell.bash binName ≠ [] ∧ s ≠ [] :=
  C2_generate_total Shell.bash modelledBashRaw (by decide) (by decide)
    (fun _ => by rw [augment_bash_modelled]; rfl)

/-- A token list mentioning neither form of the config flag. -/
def flagFreeTokens (ws : List Text) : Prop :=
  ∀ w ∈ ws, w ≠ ("--config".data) ∧ w ≠ ("-c".data)

instance (ws : List Text) : Decidable (flagFreeTokens ws) :=
  inferInstanceAs (Decidable (∀ w ∈ ws, w ≠ ("--config".data) ∧ w ≠ ("-c".data)))

theorem scanConfigFlag_append_of_flagFree {pre : List Text} (rest : List Text)
    (h : flagFreeTokens pre) :
    scanConfigFlag (pre ++ rest) = scanConfigFlag rest := by
  induction pre with
  | nil => rfl
  | cons w ws ih =>
    have hw := h w (by simp)
    have hws : flagFreeTokens ws := fun u hu => h u (by simp [hu])
    simp only [List.cons_append, scanConfigFlag]
    rw [if_neg (by tauto)]
    exact ih hws

theorem scanConfigFlag_nil_of_flagFree {ws : List Text} (h : flagFreeTokens ws) :
    scanConfigFlag ws = [] := by
  induction ws with
  | nil => rfl
  | cons w ws ih =>
    have hw := h w (by simp)
    have hws : flagFreeTokens ws := fun u hu => h u (by simp [hu])
    simp only [scanConfigFlag]
    rw [if_neg (by tauto)]
    exact ih hws

theorem scanConfigFlag_at_flag (flag v : Text) (post : List Text)
    (hflag : flag = ("--config".data) ∨ flag = ("-c".data)) :
    scanConfigFlag (flag :: v :: post) = v := by
  simp only [scanConfigFlag]
  rw [if_pos hflag]

/-- C8: each emitted config-path discovery helper
(`__prompter_bash_config_value` for Bash, `_prompter_config_value` for
Zsh, `__fish_prompter__config_arg` for Fish), invoked on a token sequence
containing `--config <path>` or `-c <path>` after the command word and
before the word being completed (with no earlier config flag), returns
exactly that path; on a token sequence containing no such flag it returns
empty.  (The Zsh helper scans the whole 1-indexed `words` array, so its
flag-freeness condition covers the command word too.) -/
theorem C8_config_value_helpers :
    (∀ (cmd : Text) (pre post : List Text) (v : Text), flagFreeTokens pre →
        bashConfigValue (cmd :: (pre ++ ("--config".data :: v :: post))) = v ∧
        bashConfigValue (cmd :: (pre ++ ("-c".data :: v :: post))) = v) ∧
    (∀ (cmd : Text) (ws : List Text), flagFreeTokens ws →
        bashConfigValue (cmd :: ws) = []) ∧
    (∀ (cmd : Text) (pre post : List Text) (v : Text), flagFreeTokens (cmd :: pre) →
        zshConfigValue ((cmd :: pre) ++ ("--config".data :: v :: post)) = v ∧
        zshConfigValue ((cmd :: pre) ++ ("-c".data :: v :: post)) = v) ∧
    (∀ ws : List Text, flagFreeTokens ws → zshConfigValue ws = []) ∧
    (∀ (cmd : Text) (pre post : List Text) (v : Text), flagFreeTokens pre →
        fishConfigArg (cmd :: (pre ++ ("--config".data :: v :: post))) = v ∧
        fishConfigArg (cmd :: (pre ++ ("-c".data :: v :: post))) = v) ∧
    (∀ (cmd : Text) (ws : List Text), flagFreeTokens ws →
        fishConfigArg (cmd :: ws) = []) := by
  have hb : ∀ (pre post : List Text) (v flag : Text),
      flag = ("--config".data) ∨ flag = ("-c".data) → flagFreeTokens pre →
      scanConfigFlag (pre ++ (flag :: v :: post)) = v := by
    intro pre post v flag hflag hpre
    rw [scanConfigFlag_append_of_flagFree _ hpre, scanConfigFlag_at_flag _ _ _ hflag]
  refine ⟨fun cmd pre post v hpre => ?_, fun cmd ws hws => ?_,
    fun cmd pre post v hpre => ?_, fun ws hws => ?_,
    fun cmd pre post v hpre => ?_, fun cmd ws hws => ?_⟩
  · exact ⟨hb pre post v _ (Or.inl rfl) hpre, hb pre post v _ (Or.inr rfl) hpre⟩
  · show scanConfigFlag ((cmd :: ws).drop 1) = []
    exact scanConfigFlag_nil_of_flagFree hws
  · exact ⟨hb (cmd :: pre) post v _ (Or.inl rfl) hpre,
      hb (cmd :: pre) post v _ (Or.inr rfl) hpre⟩
  · exact scanConfigFlag_nil_of_flagFree hws
  · exact ⟨hb pre post v _ (Or.inl rfl) hpre, hb pre post v _ (Or.inr rfl) hpre⟩
  · show scanConfigFlag ((cmd :: ws).drop 1) = []
    exact scanConfigFlag_nil_of_flagFree hws

/-- The example configuration path used by the specification. -/
def demoPath : Text := "/tmp/x.toml".data

theorem C8_config_value_helpers_witness :
    bashConfigValue [binName, "run".data, "--config".data, demoPath] = demoPath ∧
    bashConfigValue [binName, "list".data] = [] ∧
    zshConfigValue [binName, "-c".data, demoPath, "run".data] = demoPath ∧
    zshConfigValue [binName, "list".data] = [] ∧
    fishConfigArg [binName, "--config".data, demoPath] = demoPath ∧
    fishConfigArg [binName, "run".data] = [] :=
  ⟨(C8_config_value_helpers.1 binName ["run".data] [] demoPath (by decide)).1,
   C8_config_value_helpers.2.1 binName ["list".data] (by decide),
   (C8_config_value_helpers.2.2.1 binName [] ["run".data] demoPath (by decide)).2,
   C8_config_value_helpers.2.2.2.1 [binName, "list".data] (by decide),
   (C8_config_value_helpers.2.2.2.2.1 binName [] [] demoPath (by decide)).1,
   C8_config_value_helpers.2.2.2.2.2 binName ["run".data] (by decide)⟩

/-! Banner shape: every line of an instruction banner is blank or a
`\x23`-comment, checked by a single left-to-right scan. -/

/-- Line-comment scanner: `atStart` tells whether the scan is at the
beginning of a line; a line may be empty or must open with `\x23`. -/
def clAux : Text → Bool → Bool
  | [], _ => true
  | c :: t, atStart =>
    (if atStart = true ∧ c ≠ '\n' ∧ c ≠ '\x23' then false else true) && clAux t (c == '\n')

/-- Every line of `s` is empty or starts with the comment character. -/
def linesCommented (s : Text) : Bool := clAux s true

/-- The line-start state after scanning `x`, starting from state `st`. -/
def lastState (x : Text) (st : Bool) : Bool :=
  match x.getLast? with
  | none => st
  | some c => c == '\n'

theorem lastState_cons (c : Char) (t : Text) (st : Bool) :
    lastState (c :: t) st = lastState t (c == '\n') := by
  unfold lastState
  cases t with
  | nil => simp [List.getLast?]
  | cons d u =>
    rw [List.getLast?_cons_cons]
    cases h : (d :: u).getLast? with
    | none => simp at h
    | some e => rfl

theorem clAux_append (x y : Text) (st : Bool) :
    clAux (x ++ y) st = (clAux x st && clAux y (lastState x st)) := by
  induction x generalizing st with
  | nil => simp [clAux, lastState]
  | cons c t ih =>
    simp only [List.cons_append, clAux, List.append_eq]
    rw [ih (c == '\n'), lastState_cons, Bool.and_assoc]

theorem lastState_append (x y : Text) (st : Bool) :
    lastState (x ++ y) st = lastState y (lastState x st) := by
  unfold lastState
  rw [List.getLast?_append]
  cases hy : y.getLast? with
  | none => simp
  | some c => simp

/-- A text with no newline character. -/
def noNewlineIn (b : Text) : Prop := ∀ c ∈ b, c ≠ '\n'

instance (b : Text) : Decidable (noNewlineIn b) :=
  inferInstanceAs (Decidable (∀ c ∈ b, c ≠ '\n'))

theorem clAux_noNL : ∀ b : Text, noNewlineIn b →
    clAux b false = true ∧ lastState b false = false := by
  intro b
  induction b with
  | nil => exact fun _ => ⟨rfl, rfl⟩
  | cons c t ih =>
    intro hb
    have hc : c ≠ '\n' := hb c (by simp)
    have ht : noNewlineIn t := fun u hu => hb u (by simp [hu])
    obtain ⟨ih1, ih2⟩ := ih ht
    have hbeq : (c == '\n') = false := beq_eq_false_iff_ne.mpr hc
    constructor
    · simp only [clAux]
      rw [if_neg (by simp), hbeq, ih1]
      rfl
    · rw [lastState_cons, hbeq, ih2]

theorem bannerHead_commented (b : Text) (hb : noNewlineIn b) :
    clAux (bannerHead b) true = true ∧ lastState (bannerHead b) true = true := by
  obtain ⟨hb1, hb2⟩ := clAux_noNL b hb
  unfold bannerHead
  constructor
  · rw [clAux_append, clAux_append, lastState_append,
      show clAux bh1 true = true from by decide,
      show lastState bh1 true = false from by decide, hb1, hb2,
      show clAux bh2 false = true from by decide]
    rfl
  · rw [lastState_append, lastState_append,
      show lastState bh1 true = false from by decide, hb2,
      show lastState bh2 false = true from by decide]

theorem linesCommented_std (b C1 C2 : Text) (hb : noNewlineIn b)
    (h1 : clAux C1 true = true) (h2 : lastState C1 true = false)
    (h3 : clAux C2 false = true) :
    linesCommented (bannerHead b ++ C1 ++ b ++ C2) = true := by
  obtain ⟨hb1, hb2⟩ := clAux_noNL b hb
  obtain ⟨hh1, hh2⟩ := bannerHead_commented b hb
  unfold linesCommented
  simp only [clAux_append, lastState_append]
  rw [hh1, hh2, h1, h2, hb1, hb2, h3]
  rfl

theorem linesCommented_two_names (b C1 C2 m C3 : Text) (hb : noNewlineIn b)
    (hm : noNewlineIn m)
    (h1 : clAux C1 true = true) (h2 : lastState C1 true = false)
    (h3 : clAux C2 false = true) (h4 : lastState C2 false = false)
    (h5 : clAux C3 false = true) :
    linesCommented (bannerHead b ++ C1 ++ b ++ C2 ++ m ++ C3) = true := by
  obtain ⟨hb1, hb2⟩ := clAux_noNL b hb
  obtain ⟨hm1, hm2⟩ := clAux_noNL m hm
  obtain ⟨hh1, hh2⟩ := bannerHead_commented b hb
  unfold linesCommented
  simp only [clAux_append, lastState_append]
  rw [hh1, hh2, h1, h2, hb1, hb2, h3, h4, hm1, hm2, h5]
  rfl

theorem newline_mem_bannerHead (b : Text) : '\n' ∈ bannerHead b := by
  unfold bannerHead
  exact List.mem_append_right _ (by decide)

/-- Number of (possibly overlapping) occurrence positions of `p` in `s`. -/
def countMatches : Text → Text → Nat
  | [], p => if p.isPrefixOf ([] : Text) then 1 else 0
  | c :: t, p => (if p.isPrefixOf (c :: t) then 1 else 0) + countMatches t p

/-- The activation command named by each banner. -/
def activationText : Shell → Text → Text
  | .bash, b => "source <(".data ++ (b ++ " completions bash)".data)
  | .zsh, b => b ++ (actZshMid ++ b)
  | .fish, b => b ++ " completions fish | source".data
  | .powershell, b => b ++ " completions powershell | Out-String | Invoke-Expression".data
  | .elvish, b => b ++ " completions elvish | eval".data
  | .other n, b => b ++ (actOtherMid ++ n)

/-- Whether the displayed shell name carries no newline (trivially true
for the known variants). -/
def shellNameOk : Shell → Prop
  | .other n => noNewlineIn n
  | _ => True

instance : ∀ s : Shell, Decidable (shellNameOk s)
  | .other n => inferInstanceAs (Decidable (noNewlineIn n))
  | .bash => .isTrue trivial
  | .zsh => .isTrue trivial
  | .fish => .isTrue trivial
  | .powershell => .isTrue trivial
  | .elvish => .isTrue trivial

/-- C9: `render_instructions` is total and pure over the whole `Shell`
domain (it is a Lean function, and determinism is recorded by the C10
theorem): for every shell kind and newline-free program name it returns a
commented-out multi-line banner — every line blank or a `\x23` comment,
with at least one newline — naming exactly one activation command (for
the known shells, the activation text occurs exactly once in the banner
rendered for the program's binary name), and for any shell kind other
than the known five it falls back to the generic
`<program> completions <shell>` instruction. -/
theorem C9_render_instructions_banner :
    (∀ n b : Text, render_instructions (Shell.other n) b =
        bannerHead b ++ actPrefix ++ b ++ actOtherMid ++ n ++ nl2 ∧
      occursIn (render_instructions (Shell.other n) b) (activationText (Shell.other n) b)) ∧
    (∀ (shell : Shell) (b : Text), noNewlineIn b → shellNameOk shell →
        linesCommented (render_instructions shell b) = true ∧
        '\n' ∈ render_instructions shell b) ∧
    (∀ shell : Shell, shell.isKnown = true →
        countMatches (render_instructions shell binName) (activationText shell binName) = 1) := by
  refine ⟨fun n b => ⟨rfl, ?_⟩, fun shell b hb hok => ?_, fun shell hk => ?_⟩
  · have hsplit : render_instructions (Shell.other n) b =
        (bannerHead b ++ actPrefix) ++ (activationText (Shell.other n) b ++ nl2) := by
      show bannerHead b ++ actPrefix ++ b ++ actOtherMid ++ n ++ nl2 = _
      simp [activationText, List.append_assoc]
    rw [hsplit]
    apply occursIn_append_right
    apply occursIn_append_left
    exact ⟨0, matchesAt_zero.mpr (List.prefix_refl _)⟩
  · cases shell with
    | bash =>
      refine ⟨linesCommented_std b actBashPre actBashSuf hb (by decide) (by decide) (by decide), ?_⟩
      exact List.mem_append_left _ (List.mem_append_left _
        (List.mem_append_left _ (newline_mem_bannerHead b)))
    | zsh =>
      refine ⟨linesCommented_two_names b actPrefix actZshMid b actZshSuf hb hb
        (by decide) (by decide) (by decide) (by decide) (by decide), ?_⟩
      exact List.mem_append_left _ (List.mem_append_left _ (List.mem_append_left _
        (List.mem_append_left _ (List.mem_append_left _ (newline_mem_bannerHead b)))))
    | fish =>
      refine ⟨linesCommented_std b actPrefix actFishSuf hb (by decide) (by decide) (by decide), ?_⟩
      exact List.mem_append_left _ (List.mem_append_left _
        (List.mem_append_left _ (newline_mem_bannerHead b)))
    | powershell =>
      refine ⟨linesCommented_std b actPrefix actPwshSuf hb (by decide) (by decide) (by decide), ?_⟩
      exact List.mem_append_left _ (List.mem_append_left _
        (List.mem_append_left _ (newline_mem_bannerHead b)))
    | elvish =>
      refine ⟨linesCommented_std b actPrefix actElvSuf hb (by decide) (by decide) (by decide), ?_⟩
      exact List.mem_append_left _ (List.mem_append_left _
        (List.mem_append_left _ (newline_mem_bannerHead b)))
    | other n =>
      refine ⟨linesCommented_two_names b actPrefix actOtherMid n nl2 hb hok
        (by decide) (by decide) (by decide) (by decide) (by decide), ?_⟩
      exact List.mem_append_left _ (List.mem_append_left _ (List.mem_append_left _
        (List.mem_append_left _ (List.mem_append_left _ (newline_mem_bannerHead b)))))
  · cases shell with
    | bash => decide
    | zsh => decide
    | fish => decide
    | powershell => decide
    | elvish => decide
    | other n => simp [Shell.isKnown] at hk

theorem C9_render_instructions_banner_witness :
    (linesCommented (render_instructions Shell.zsh binName) = true ∧
      '\n' ∈ render_instructions Shell.zsh binName) ∧
    countMatches (render_instructions Shell.bash binName)
      (activationText Shell.bash binName) = 1 :=
  ⟨C9_render_instructions_banner.2.1 Shell.zsh binName (by decide) (by decide),
   C9_render_instructions_banner.2.2 Shell.bash rfl⟩

/-- C10: determinism — `render_instructions` and each augmenter, as well
as the orchestrator, depend on no state other than their inputs: on any
two invocations with equal inputs the output text is identical.  (Each
operation is embedded as a pure function of exactly these inputs, which
is what the Rust code does: the only data flowing into the outputs are
the shell kind, the binary name and the raw script.) -/
theorem C10_deterministic (sh1 sh2 : Shell) (b1 b2 raw1 raw2 : Text)
    (hs : sh1 = sh2) (hb : b1 = b2) (hr : raw1 = raw2) :
    render_instructions sh1 b1 = render_instructions sh2 b2 ∧
    augment_bash raw1 = augment_bash raw2 ∧
    augment_zsh raw1 = augment_zsh raw2 ∧
    augment_fish raw1 = augment_fish raw2 ∧
    generate sh1 raw1 = generate sh2 raw2 := by
  subst hs
  subst hb
  subst hr
  exact ⟨rfl, rfl, rfl, rfl, rfl⟩

theorem C10_deterministic_witness :
    render_instructions Shell.fish binName = render_instructions Shell.fish binName ∧
    augment_bash ("x".data) = augment_bash ("x".data) ∧
    augment_zsh ("x".data) = augment_zsh ("x".data) ∧
    augment_fish ("x".data) = augment_fish ("x".data) ∧
    generate Shell.fish ("x".data) = generate Shell.fish ("x".data) :=
  C10_deterministic Shell.fish Shell.fish binName binName ("x".data) ("x".data) rfl rfl rfl

end Prompter
